import Mathlib

/-!
Verification development for the `desk_organize.py` file organizer.

The Python source is shallowly embedded: paths are unnormalized strings
joined with a slash (mirroring `os.path.join` on already-clean inputs),
the filesystem is an association list from paths to file data plus a list
of existing directory paths, and the external classification endpoint is
an oracle parameter.  Fallible operations (`shutil.move`, `os.makedirs`,
extraction, the organize loop) return `Option`, with `none` standing for
a raised exception.
-/

namespace DeskOrganize

/-! ## Definitions: the shallow embedding of `desk_organize.py` -/

/-- The dot character, the separator used by the extension split. -/
def dotChar : Char := '.'

/-- The path separator character. -/
def slashChar : Char := '/'

/-- Python `str.split(sep)` for a one-character separator, on the
character list of the string.  `"".split(".")` is `[""]`, so the empty
list maps to `[[]]`. -/
def pySplit (sep : Char) : List Char → List (List Char)
  | [] => [[]]
  | c :: rest =>
    match pySplit sep rest with
    | [] => [[]]
    | h :: t => if c = sep then [] :: h :: t else (c :: h) :: t

/-- `file_name.split(".")[-1].lower()` — the extension used for extractor
dispatch in `organize_files` (line 198 of the source). -/
def detectedType (name : String) : String :=
  String.mk (((pySplit dotChar name.data).getLastD []).map Char.toLower)

/-- The loop of `PdfExtractor.extract`: iterate over the page texts with
`enumerate`, breaking once `page_num >= max_pages`, appending each page
text as its own chunk. -/
def pdfLoop (max_pages : Nat) : Nat → List String → List String
  | _, [] => []
  | page_num, p :: ps =>
    if max_pages ≤ page_num then []
    else p :: pdfLoop max_pages (page_num + 1) ps

/-- `PdfExtractor.extract`: a PDF document is modelled by the list of its
page texts (`page.get_text()` for each page in order). -/
def PdfExtractor_extract (pages : List String) (max_pages : Nat := 10) : List String :=
  pdfLoop max_pages 0 pages

/-- `os.path.join(a, b)` for a clean `a` (no trailing slash) and
relative `b`: concatenation with a single separator.  No normalization
is performed, mirroring the string concatenation the source relies on. -/
def pjoin (a b : String) : String := a ++ "/" ++ b

/-- The characters after the last occurrence of `sep` (the whole list
when `sep` does not occur). -/
def afterLastSep (sep : Char) (cs : List Char) : List Char :=
  (cs.reverse.takeWhile (fun c => c != sep)).reverse

/-- `os.path.basename`: the part of the path after the last slash. -/
def basenameStr (p : String) : String :=
  String.mk (afterLastSep slashChar p.data)

/-- A rollback-log entry `{"original": ..., "new": ...}`. -/
structure MoveEntry where
  original : String
  new : String
deriving DecidableEq, Repr

/-- Data stored at a file path.  Binary formats are carried in already
parsed form (a PDF is its page texts, a Word document its paragraph
texts, an image the text its OCR yields); the persisted rollback log is
carried as the structured record `json.dump` writes. -/
inductive FileData where
  | txt (s : String)
  | pdfPages (pages : List String)
  | docxParas (paras : List String)
  | image (ocr : String)
  | log (entries : List MoveEntry)
deriving DecidableEq, Repr

/-- Filesystem state: files as an association list from absolute path to
file data, plus the list of existing directory paths. -/
structure FS where
  files : List (String × FileData)
  dirs : List String
deriving DecidableEq, Repr

/-- Lookup in an association list from paths to file data. -/
def lookupA (p : String) : List (String × FileData) → Option FileData
  | [] => none
  | (k, v) :: l => if k = p then some v else lookupA p l

/-- Remove every binding of `p` from an association list. -/
def removeA (p : String) : List (String × FileData) → List (String × FileData)
  | [] => []
  | (k, v) :: l => if k = p then removeA p l else (k, v) :: removeA p l

/-- Content of a file, `none` when no file is at `p` (a directory at `p`
does not count). -/
def FS.lookupFile (fs : FS) (p : String) : Option FileData :=
  lookupA p fs.files

/-- `os.path.isfile`. -/
def FS.isFile (fs : FS) (p : String) : Bool :=
  (fs.lookupFile p).isSome

/-- `os.path.isdir`. -/
def FS.isDir (fs : FS) (p : String) : Bool :=
  decide (p ∈ fs.dirs)

/-- `os.path.exists`. -/
def FS.exists (fs : FS) (p : String) : Bool :=
  fs.isFile p || fs.isDir p

/-- Remove the file at `p` (no effect when absent). -/
def FS.removeFile (fs : FS) (p : String) : FS :=
  { fs with files := removeA p fs.files }

/-- Create or overwrite the file at `p` with data `d`. -/
def FS.setFile (fs : FS) (p : String) (d : FileData) : FS :=
  { fs with files := (p, d) :: removeA p fs.files }

/-- `os.makedirs(p, exist_ok=True)`: an existing directory at `p` is
fine, a file at `p` raises `FileExistsError` (modelled as `none`).
Intermediate parents are elided; only the target directory matters to
the claims. -/
def makedirs (p : String) (fs : FS) : Option FS :=
  if fs.isFile p then none
  else some { fs with dirs := if p ∈ fs.dirs then fs.dirs else p :: fs.dirs }

/-- `shutil.move(src, dst)` for a regular-file `src`.  When `dst` is an
existing directory the source is moved *into* it, raising when the
landing path already exists; otherwise the file is renamed onto `dst`,
silently replacing an existing file there (`os.rename` semantics, and
the `copy2`-then-unlink fallback behaves the same).  A missing `src`
raises.  Exceptions are `none`. -/
def shutil_move (src dst : String) (fs : FS) : Option FS :=
  if fs.isDir dst then
    let real_dst := pjoin dst (basenameStr src)
    if fs.exists real_dst then none
    else
      match fs.lookupFile src with
      | none => none
      | some d => some ((fs.removeFile src).setFile real_dst d)
  else
    match fs.lookupFile src with
    | none => none
    | some d => some ((fs.removeFile src).setFile dst d)

/-- `FileOrganizer.move_file_to_category` (lines 154-162): create the
category directory, `shutil.move` the file onto
`base/category/basename`, and append a rollback entry to the in-memory
list.  `none` models a raised exception. -/
def move_file_to_category (base category file_path : String) (fs : FS)
    (moved : List MoveEntry) : Option (FS × List MoveEntry) :=
  let category_path := pjoin base category
  match makedirs category_path fs with
  | none => none
  | some fs1 =>
    let new_path := pjoin category_path (basenameStr file_path)
    match shutil_move file_path new_path fs1 with
    | none => none
    | some fs2 =>
      some (fs2, moved ++ [{ original := file_path, new := new_path }])

/-- The fixed name of the persisted rollback log. -/
def rollback_log_name : String := "rollback_log.json"

/-- `self.rollback_log = os.path.join(self.base_dir, "rollback_log.json")`. -/
def rollback_log_path (base : String) : String := pjoin base rollback_log_name

/-- One iteration of the rollback loop: when `new_path` still exists it
is moved back onto `original_path` (and the progress line printed),
otherwise the entry is skipped. -/
def rollback_entry_step (fs : FS) (e : MoveEntry) : Option (FS × List String) :=
  if fs.exists e.new then
    match shutil_move e.new e.original fs with
    | none => none
    | some fs1 => some (fs1, ["Rolled back " ++ e.new ++ " to " ++ e.original])
  else some (fs, [])

/-- The rollback loop over the stored entries, in stored order. -/
def rollback_loop (fs : FS) : List MoveEntry → Option (FS × List String)
  | [] => some (fs, [])
  | e :: es =>
    match rollback_entry_step fs e with
    | none => none
    | some (fs1, out1) =>
      match rollback_loop fs1 es with
      | none => none
      | some (fs2, out2) => some (fs2, out1 ++ out2)

/-- `FileOrganizer.rollback_changes` (lines 169-182): the guard is
`if not os.path.exists(self.rollback_log)` — `os.path.exists`, true for
a file *or* a directory — printing the diagnostic and returning when
nothing is at the path.  Otherwise the code calls `open(...)` and
`json.load`: a directory at the path makes `open` raise
`IsADirectoryError`, and non-log file content makes `json.load` raise —
both modelled as `none`.  With a log file present, the entries are
replayed in stored order and the log file deleted.  The result pairs
the final filesystem with the printed lines. -/
def rollback_changes (base : String) (fs : FS) : Option (FS × List String) :=
  if fs.exists (rollback_log_path base) then
    match fs.lookupFile (rollback_log_path base) with
    | some (FileData.log entries) =>
      match rollback_loop fs entries with
      | none => none
      | some (fs1, out) => some (fs1.removeFile (rollback_log_path base), out)
    | some _ => none
    | none => none
  else some (fs, ["No rollback log found."])

/-- The single-quote character (U+0027), used by Python when rendering
a list of strings. -/
def quoteChar : Char := Char.ofNat 39

/-- Python `repr` of a string containing no quote or escape characters:
the text between single quotes.  The chunk texts appearing in the
claims contain none, so no escaping is modelled. -/
def pyReprStr (s : String) : String :=
  String.singleton quoteChar ++ s ++ String.singleton quoteChar

/-- Python `str` of a list of strings, as an f-string renders it:
`['a', 'b']`. -/
def pyStrList (xs : List String) : String :=
  "[" ++ String.intercalate ", " (xs.map pyReprStr) ++ "]"

/-- What an extractor hands to the orchestrator: a single text, or the
list of chunks the PDF extractor returns. -/
inductive ExtractResult where
  | text (s : String)
  | chunks (cs : List String)
deriving DecidableEq, Repr

/-- Python `str` applied to the extractor result, as the prompt
f-string does: a string stays itself, a list is rendered as
`['a', 'b']`. -/
def pyStrOf : ExtractResult → String
  | ExtractResult.text s => s
  | ExtractResult.chunks cs => pyStrList cs

/-- The user-message content of the classifier request (line 140 of
the source): an f-string over the filename, the text, and the
comma-joined existing categories (`None` when there are none). -/
def categorize_prompt (filename text : String) (existing_dirs : List String) : String :=
  "Given the following document " ++ filename ++ " with text content:\n" ++ text
    ++ "\nExisting categories: "
    ++ (if existing_dirs.isEmpty then "None" else String.intercalate ", " existing_dirs)
    ++ "\nShould this file belong to an existing category or should a new one be created (propose a new one if you have a more suitable/specific category)? If new, suggest a name. Give a single word response"

/-- Python `str.strip()`: drop whitespace from both ends. -/
def pyStrip (s : String) : String :=
  String.mk (((s.data.dropWhile Char.isWhitespace).reverse.dropWhile
    Char.isWhitespace).reverse)

/-- Observable outcome of `categorize_text_with_deepseek`: the returned
category (or the raised exception message), the list of `time.sleep`
durations performed, and the number of HTTP attempts made. -/
structure ApiOutcome where
  result : Except String String
  sleeps : List Nat
  attempts : Nat
deriving Repr

/-- The retry loop `for attempt in range(retries)` (lines 144-152).
`post attempt` is the outcome of the HTTP POST on attempt number
`attempt`: `none` models a raised `requests.exceptions.RequestException`
(after which the code logs and sleeps `wait`), `some s` the response
content, which is stripped (`pyStrip`) and returned.  When the range
is exhausted the exhausted-retries exception is raised. -/
def retryLoop (post : Nat → Option String) (wait : Nat) : Nat → Nat → ApiOutcome
  | _, 0 => ⟨Except.error "Failed after multiple retries due to API issues.", [], 0⟩
  | attempt, r + 1 =>
    match post attempt with
    | some content => ⟨Except.ok (pyStrip content), [], 1⟩
    | none =>
      let rest := retryLoop post wait (attempt + 1) r
      ⟨rest.result, wait :: rest.sleeps, rest.attempts + 1⟩

/-- `FileOrganizer.categorize_text_with_deepseek` (lines 132-152): build
the prompt from filename, text and the current existing directories,
then run the retry loop with the given bounds (defaults `retries=3`,
`wait=5`). -/
def categorize_text_with_deepseek (post : Nat → String → Option String)
    (existing_dirs : List String) (filename text : String)
    (retries : Nat := 3) (wait : Nat := 5) : ApiOutcome :=
  retryLoop (fun attempt => post attempt (categorize_prompt filename text existing_dirs))
    wait 0 retries

/-- The classifier call `organize_files` makes for one file (line 202):
the raw extractor result — a chunk *list* for a PDF — is interpolated
into the prompt via Python `str`, with the default retry bounds. -/
def organize_categorize_call (post : Nat → String → Option String)
    (existing : List String) (file_name : String)
    (text_content : ExtractResult) : ApiOutcome :=
  categorize_text_with_deepseek post existing file_name (pyStrOf text_content)

/-- Modelled from the spec: the Category Resolver of spec §4.3, which
is absent from `src/desk_organize.py` — of several chunk labels it
"picks the label with the highest occurrence count; ties are broken by
first-encountered-with-max-count (stable over insertion order)". -/
def resolve (labels : List String) : String :=
  let maxc := (labels.map (fun l => labels.count l)).foldl Nat.max 0
  (labels.find? (fun l => labels.count l == maxc)).getD ""

/-- An independent classification of one chunk: the chunk text is sent
as the request text, everything else unchanged. -/
def chunkClassification (post : Nat → String → Option String)
    (existing : List String) (file_name chunk : String) : ApiOutcome :=
  categorize_text_with_deepseek post existing file_name chunk

/-- Per-run configuration, as `__init__` loads it: the absolute base
directory, the optional include-list from `.files_to_organize` (empty
list = absent/empty file = organize all), and the exclusions from
`.excluded_dirs`. -/
structure Config where
  base : String
  files_to_organize : List String
  excluded_dirs : List String

/-- The keys of the `self.extractors` table (lines 56-63). -/
def supportedExts : List String := ["txt", "pdf", "docx", "png", "jpg", "jpeg"]

/-- `self.extractors[ext].extract(file_path)` applied to the data at
the path: a text file is read whole, a PDF yields its page chunks
(default page limit), a Word document joins its paragraphs with
newlines, an image yields its OCR text.  Data not matching the
dispatched extractor models a corrupt/unreadable file: the extraction
raises (`none`). -/
def runExtractor : String → FileData → Option ExtractResult
  | "txt", FileData.txt s => some (ExtractResult.text s)
  | "pdf", FileData.pdfPages ps => some (ExtractResult.chunks (PdfExtractor_extract ps))
  | "docx", FileData.docxParas ps => some (ExtractResult.text (String.intercalate "\n" ps))
  | "png", FileData.image s => some (ExtractResult.text s)
  | "jpg", FileData.image s => some (ExtractResult.text s)
  | "jpeg", FileData.image s => some (ExtractResult.text s)
  | _, _ => none

/-- Strip a leading `xs` from `ys`. -/
def stripPre : List Char → List Char → Option (List Char)
  | [], ys => some ys
  | _ :: _, [] => none
  | x :: xs, y :: ys => if x = y then stripPre xs ys else none

/-- The path of `p` relative to `base`: `some r` when `p = base/r`. -/
def relUnder (base p : String) : Option String :=
  match stripPre (base.data ++ [slashChar]) p.data with
  | some r => some (String.mk r)
  | none => none

/-- `get_existing_directories` as the organize loop re-invokes it after
each move, recomputed over the flat filesystem: the base directory's
name (unless excluded), plus the relative path of every directory below
the base none of whose path components is excluded and whose relative
path is not excluded.  (`get_existing_directories` over the directory
*tree*, with the walk order, is defined separately below; this flat
recomputation feeds only the classifier prompt.) -/
def refresh_existing_dirs (base : String) (excluded : List String) (fs : FS) :
    List String :=
  (if basenameStr base ∈ excluded then [] else [basenameStr base])
    ++ fs.dirs.filterMap (fun dpath =>
      match relUnder base dpath with
      | none => none
      | some rel =>
        if (∀ comp ∈ pySplit slashChar rel.data, String.mk comp ∉ excluded)
            ∧ rel ∉ excluded
        then some rel else none)

/-- The mutable organizer state of one run: the filesystem, the
in-memory `self.moved_files`, the cached `self.existing_dirs`, and the
names for which the processing branch ran (the "Processing ..." files). -/
structure OState where
  fs : FS
  moved_files : List MoveEntry
  existing_dirs : List String
  processed : List String
deriving DecidableEq, Repr

/-- The branch the `organize_files` loop body takes for one directory
entry: skipped because an include-list is present and lacks the name;
processed with the dispatched extension and the file's data; skipped as
unsupported; or the directory branch (only prints). -/
inductive StepAction where
  | skipNotListed
  | processFile (ext : String) (d : FileData)
  | skipUnsupported
  | dirBranch
deriving DecidableEq, Repr

/-- Branch selection of the loop body (lines 192-216): the include-list
test runs first, then `os.path.isfile`, then the
`ext in self.extractors` test on `file_name.split(".")[-1].lower()`. -/
def stepAction (cfg : Config) (fs : FS) (file_name : String) : StepAction :=
  if cfg.files_to_organize ≠ [] ∧ file_name ∉ cfg.files_to_organize then
    StepAction.skipNotListed
  else
    match fs.lookupFile (pjoin cfg.base file_name) with
    | some d =>
      if detectedType file_name ∈ supportedExts then
        StepAction.processFile (detectedType file_name) d
      else StepAction.skipUnsupported
    | none => StepAction.dirBranch

/-- One iteration of the `organize_files` loop for the entry
`file_name`.  `categorize` abstracts a *successful*
`categorize_text_with_deepseek` call: it maps the file name, the
extractor result and the current `existing_dirs` to the returned
category label (a failing call, like any exception here, would halt
the run: `none`).  After a move, `existing_dirs` is refreshed. -/
def organizeStep (cfg : Config)
    (categorize : String → ExtractResult → List String → String)
    (st : OState) (file_name : String) : Option OState :=
  match stepAction cfg st.fs file_name with
  | StepAction.processFile ext d =>
    match runExtractor ext d with
    | none => none
    | some tc =>
      let category := categorize file_name tc st.existing_dirs
      match move_file_to_category cfg.base category (pjoin cfg.base file_name)
          st.fs st.moved_files with
      | none => none
      | some (fs2, moved2) =>
        some { fs := fs2, moved_files := moved2,
               existing_dirs := refresh_existing_dirs cfg.base cfg.excluded_dirs fs2,
               processed := st.processed ++ [file_name] }
  | _ => some st

/-- The `for file_name in all_items` loop. -/
def organize_loop (cfg : Config)
    (categorize : String → ExtractResult → List String → String) :
    OState → List String → Option OState
  | st, [] => some st
  | st, n :: ns =>
    match organizeStep cfg categorize st n with
    | none => none
    | some st1 => organize_loop cfg categorize st1 ns

/-- `save_rollback_log` (lines 164-167): open the fixed log path with
mode `"w"` and dump the in-memory move list — an unconditional
overwrite. -/
def save_rollback_log (base : String) (st : OState) : OState :=
  { st with
    fs := st.fs.setFile (rollback_log_path base) (FileData.log st.moved_files) }

/-- `organize_files` (lines 184-219): snapshot `os.listdir(base)` as
`all_items`, run the loop, then persist the rollback log.  The initial
state mirrors `__init__`: empty in-memory move list, freshly enumerated
`existing_dirs`. -/
def organize_files (cfg : Config)
    (categorize : String → ExtractResult → List String → String)
    (all_items : List String) (fs0 : FS) : Option OState :=
  match organize_loop cfg categorize
      { fs := fs0, moved_files := [],
        existing_dirs := refresh_existing_dirs cfg.base cfg.excluded_dirs fs0,
        processed := [] } all_items with
  | none => none
  | some st => some (save_rollback_log cfg.base st)

/-- A directory tree below (and including) the base: a directory name
and the subdirectory subtrees.  Files play no role in category
enumeration. -/
inductive DirTree where
  | node : String → List DirTree → DirTree
deriving Repr

def DirTree.name : DirTree → String
  | DirTree.node n _ => n

def DirTree.subs : DirTree → List DirTree
  | DirTree.node _ cs => cs

/-- Extend a relative path by one component (`""` denotes the base). -/
def relJoin (r n : String) : String := if r = "" then n else r ++ "/" ++ n

/-- The `os.walk` part of `get_existing_directories` below the root:
`rel` is the relative path of the directory whose children `cs` are
being scanned (`""` at the base).  A child whose *name* is in the
exclusion set is pruned (`dirs[:] = [d for d in dirs if d not in
self.excluded_dirs]`) and never visited; a visited child is appended
unless its *relative path* is in the exclusion set (line 128), and its
own children are then walked. -/
def walkSubs (excluded : List String) : String → List DirTree → List String
  | _, [] => []
  | rel, DirTree.node n subs :: cs =>
    (if n ∈ excluded then []
     else
       (if relJoin rel n ∈ excluded then [] else [relJoin rel n])
         ++ walkSubs excluded (relJoin rel n) subs)
      ++ walkSubs excluded rel cs

/-- `FileOrganizer.get_existing_directories` (lines 112-130): the base
directory contributes its basename when that is not excluded (the
`rel_path == '.'` branch), after which the pruned walk of its
subdirectories contributes their relative paths. -/
def get_existing_directories (excluded : List String) (base : DirTree) : List String :=
  (if base.name ∈ excluded then [] else [base.name])
    ++ walkSubs excluded "" base.subs

/-- A chain of directory names descending through subtrees: `Chain cs
[n1, ..., nk]` holds when some tree in `cs` is named `n1`, one of its
subtrees is named `n2`, and so on. -/
inductive Chain : List DirTree → List String → Prop
  | nil (cs : List DirTree) : Chain cs []
  | cons {cs : List DirTree} {ns : List String} (n : String) (subs : List DirTree)
      (hmem : DirTree.node n subs ∈ cs) (tail : Chain subs ns) : Chain cs (n :: ns)

/-! ## Theorems: helper lemmas and the claim verdicts -/

/-- `pySplit` never returns an empty list of pieces. -/
theorem pySplit_ne_nil (sep : Char) (cs : List Char) : pySplit sep cs ≠ [] := by
  cases cs with
  | nil => simp [pySplit]
  | cons c rest =>
    simp only [pySplit]
    cases h : pySplit sep rest with
    | nil => simp
    | cons hd tl =>
      by_cases hc : c = sep <;> simp [hc]

theorem pdfLoop_eq_take (m : Nat) (ps : List String) :
    ∀ i : Nat, pdfLoop m i ps = ps.take (m - i) := by
  induction ps with
  | nil => intro i; simp [pdfLoop]
  | cons p ps ih =>
    intro i
    by_cases h : m ≤ i
    · simp [pdfLoop, h, Nat.sub_eq_zero_of_le h]
    · have hlt : i < m := Nat.lt_of_not_le h
      have hsub : m - i = (m - (i + 1)) + 1 := by omega
      simp [pdfLoop, h, hsub, ih (i + 1)]

/-- C8: the PDF extractor returns one chunk per page, in page order,
stopping at the page limit: the chunk list is exactly the first
`max_pages` page texts, hence has at most `max_pages` entries; the
default limit is 10. -/
theorem C8_pdf_extract_pages (pages : List String) (max_pages : Nat) :
    PdfExtractor_extract pages max_pages = pages.take max_pages
    ∧ (PdfExtractor_extract pages max_pages).length ≤ max_pages
    ∧ PdfExtractor_extract pages = pages.take 10 := by
  refine ⟨?_, ?_, ?_⟩
  · simpa using pdfLoop_eq_take max_pages pages 0
  · have h := pdfLoop_eq_take max_pages pages 0
    simp only [PdfExtractor_extract, h, Nat.sub_zero]
    simp [List.length_take_le max_pages pages]
  · simpa using pdfLoop_eq_take 10 pages 0

theorem lookupA_removeA_ne {l : List (String × FileData)} {p q : String} (h : p ≠ q) :
    lookupA p (removeA q l) = lookupA p l := by
  induction l with
  | nil => rfl
  | cons e l ih =>
    obtain ⟨k, v⟩ := e
    by_cases hk : k = q
    · subst hk
      have : ¬ k = p := fun hkp => h hkp.symm
      simp [removeA, lookupA, this, ih]
    · by_cases hkp : k = p
      · simp [removeA, lookupA, hk, hkp, h]
      · simp [removeA, lookupA, hk, hkp, ih]

theorem lookupA_removeA_self (l : List (String × FileData)) (p : String) :
    lookupA p (removeA p l) = none := by
  induction l with
  | nil => rfl
  | cons e l ih =>
    obtain ⟨k, v⟩ := e
    by_cases hk : k = p
    · simp [removeA, hk, ih]
    · simp [removeA, lookupA, hk, ih]

@[simp] theorem lookupFile_setFile_self (fs : FS) (p : String) (d : FileData) :
    (fs.setFile p d).lookupFile p = some d := by
  simp [FS.setFile, FS.lookupFile, lookupA]

@[simp] theorem lookupFile_removeFile_self (fs : FS) (p : String) :
    (fs.removeFile p).lookupFile p = none := by
  simp [FS.removeFile, FS.lookupFile, lookupA_removeA_self]

@[simp] theorem dirs_setFile (fs : FS) (p : String) (d : FileData) :
    (fs.setFile p d).dirs = fs.dirs := rfl

@[simp] theorem dirs_removeFile (fs : FS) (p : String) :
    (fs.removeFile p).dirs = fs.dirs := rfl

@[simp] theorem isDir_setFile (fs : FS) (p q : String) (d : FileData) :
    (fs.setFile p d).isDir q = fs.isDir q := rfl

@[simp] theorem isDir_removeFile (fs : FS) (p q : String) :
    (fs.removeFile p).isDir q = fs.isDir q := rfl

theorem lookupFile_setFile_ne (fs : FS) {p q : String} (d : FileData) (h : q ≠ p) :
    (fs.setFile p d).lookupFile q = fs.lookupFile q := by
  have : ¬ p = q := fun hpq => h hpq.symm
  simp [FS.setFile, FS.lookupFile, lookupA, this, lookupA_removeA_ne h]

theorem lookupFile_removeFile_ne (fs : FS) {p q : String} (h : q ≠ p) :
    (fs.removeFile p).lookupFile q = fs.lookupFile q := by
  simp [FS.removeFile, FS.lookupFile, lookupA_removeA_ne h]

theorem string_data_inj {a b : String} (h : a.data = b.data) : a = b := by
  cases a; cases b
  exact congrArg String.mk h

theorem pjoin_data (a b : String) :
    (pjoin a b).data = a.data ++ slashChar :: b.data := by
  simp [pjoin, slashChar]

theorem takeWhile_append_of_all {α : Type} {p : α → Bool} {xs : List α}
    (h : ∀ a ∈ xs, p a = true) {y : α} (hy : p y = false) (ys : List α) :
    (xs ++ y :: ys).takeWhile p = xs := by
  induction xs with
  | nil => simp [List.takeWhile, hy]
  | cons x xs ih =>
    have hx : p x = true := h x (by simp)
    have hxs : ∀ a ∈ xs, p a = true := fun a ha => h a (by simp [ha])
    simp [List.takeWhile, hx, ih hxs]

theorem afterLastSep_append_sep (sep : Char) (xs ys : List Char)
    (h : sep ∉ ys) : afterLastSep sep (xs ++ sep :: ys) = ys := by
  have hall : ∀ a ∈ ys.reverse, (a != sep) = true := by
    intro a ha
    have : a ∈ ys := List.mem_reverse.mp ha
    simp only [bne_iff_ne, ne_eq]
    exact fun hq => h (hq ▸ this)
  have hsep : (sep != sep) = false := by simp
  have hrev : (xs ++ sep :: ys).reverse = ys.reverse ++ sep :: xs.reverse := by
    simp
  rw [afterLastSep, hrev, takeWhile_append_of_all hall hsep, List.reverse_reverse]

theorem basenameStr_pjoin (base name : String) (h : slashChar ∉ name.data) :
    basenameStr (pjoin base name) = name := by
  apply string_data_inj
  show (afterLastSep slashChar (pjoin base name).data) = name.data
  rw [pjoin_data, afterLastSep_append_sep slashChar base.data name.data h]

theorem pjoin_data_length (a b : String) :
    (pjoin a b).data.length = a.data.length + 1 + b.data.length := by
  simp [pjoin_data]
  omega

/-- A direct child path of the base is never the nested path the mover
computes for it, whatever the category: the lengths differ. -/
theorem pjoin_base_ne_nested (base c name : String) :
    pjoin base name ≠ pjoin (pjoin base c) name := by
  intro h
  have := congrArg (fun s => s.data.length) h
  simp only [pjoin_data_length] at this
  omega

theorem pjoin_right_inj {base a b : String} (h : pjoin base a = pjoin base b) :
    a = b := by
  have hd := congrArg String.data h
  rw [pjoin_data, pjoin_data] at hd
  have := List.append_cancel_left hd
  exact string_data_inj (by simpa using this)

/-- A slash-free direct child path of the base differs from every path
of the form `base/c/d`. -/
theorem pjoin_child_ne_deep {name : String} (h : slashChar ∉ name.data)
    (base c d : String) : pjoin base name ≠ pjoin (pjoin base c) d := by
  intro he
  have hd := congrArg String.data he
  rw [pjoin_data, pjoin_data, pjoin_data, List.append_assoc] at hd
  have := List.append_cancel_left hd
  have hmem : slashChar ∈ name.data := by
    have : name.data = c.data ++ slashChar :: d.data := by simpa using this
    rw [this]
    simp
  exact h hmem

theorem pjoin_ne_left (a b : String) : pjoin a b ≠ a := by
  intro h
  have := congrArg (fun s => s.data.length) h
  simp only [pjoin_data_length] at this
  omega

theorem makedirs_some {p : String} {fs fs1 : FS} (h : makedirs p fs = some fs1) :
    fs1.files = fs.files ∧ p ∈ fs1.dirs
    ∧ (fs1.dirs = fs.dirs ∨ fs1.dirs = p :: fs.dirs) := by
  by_cases hf : fs.isFile p
  · simp [makedirs, hf] at h
  · simp only [makedirs, hf, Bool.false_eq_true, if_false, Option.some_inj] at h
    subst h
    by_cases hmem : p ∈ fs.dirs
    · simp [hmem]
    · simp [hmem]

theorem makedirs_of_not_file {p : String} {fs : FS} (h : fs.lookupFile p = none) :
    makedirs p fs
      = some { fs with dirs := if p ∈ fs.dirs then fs.dirs else p :: fs.dirs } := by
  simp [makedirs, FS.isFile, h]

/-- C5: when `move_file_to_category` succeeds on a direct child
`base/name` of the base directory (with `name` slash-free, and the
computed destination not an existing directory), afterwards the
category directory `base/c` exists, the file is gone from its original
path, the file's data sits at `base/c/name`, and exactly the one entry
`{original := base/name, new := base/c/name}` was appended to the
in-memory rollback log. -/
theorem C5_move_file_postconditions (base c name : String) (fs : FS)
    (moved : List MoveEntry) (fs2 : FS) (moved2 : List MoveEntry)
    (hname : slashChar ∉ name.data)
    (hnotdir : fs.isDir (pjoin (pjoin base c) name) = false)
    (hmv : move_file_to_category base c (pjoin base name) fs moved
            = some (fs2, moved2)) :
    pjoin base c ∈ fs2.dirs
    ∧ fs2.lookupFile (pjoin base name) = none
    ∧ (∃ d, fs.lookupFile (pjoin base name) = some d
        ∧ fs2.lookupFile (pjoin (pjoin base c) name) = some d)
    ∧ moved2 = moved
        ++ [{ original := pjoin base name, new := pjoin (pjoin base c) name }] := by
  cases hmk : makedirs (pjoin base c) fs with
  | none => simp [move_file_to_category, hmk] at hmv
  | some fs1 =>
    obtain ⟨hfiles, hmem, hdirs⟩ := makedirs_some hmk
    have hlook1 : ∀ q, fs1.lookupFile q = fs.lookupFile q := by
      intro q; simp [FS.lookupFile, hfiles]
    have hnd1 : fs1.isDir (pjoin (pjoin base c) name) = false := by
      rcases hdirs with hsame | hcons
      · simp [FS.isDir, hsame]
        simpa [FS.isDir] using hnotdir
      · simp [FS.isDir, hcons]
        constructor
        · exact fun he => (pjoin_ne_left (pjoin base c) name) he
        · simpa [FS.isDir] using hnotdir
    simp only [move_file_to_category, hmk, basenameStr_pjoin base name hname,
      shutil_move, hnd1, Bool.false_eq_true, if_false] at hmv
    cases hsrc : fs1.lookupFile (pjoin base name) with
    | none => simp [hsrc] at hmv
    | some d =>
      simp only [hsrc, Option.some_inj, Prod.mk.injEq] at hmv
      obtain ⟨hfs2, hmoved2⟩ := hmv
      have hne : pjoin (pjoin base c) name ≠ pjoin base name :=
        fun h => pjoin_base_ne_nested base c name h.symm
      refine ⟨?_, ?_, ⟨d, ?_, ?_⟩, hmoved2.symm⟩
      · rw [← hfs2]; simpa using hmem
      · rw [← hfs2]
        rw [lookupFile_setFile_ne _ _ (Ne.symm hne)]
        simp
      · rw [← hlook1 _]; exact hsrc
      · rw [← hfs2]; simp

/-- C5 witness: a concrete successful move satisfying the hypotheses. -/
theorem C5_move_file_postconditions_witness :
    pjoin "/b" "Reports" ∈
        (FS.mk [(pjoin (pjoin "/b" "Reports") "f.txt", FileData.txt "hello")]
          ["/b/Reports", "/b"]).dirs
    ∧ (FS.mk [(pjoin (pjoin "/b" "Reports") "f.txt", FileData.txt "hello")]
          ["/b/Reports", "/b"]).lookupFile (pjoin "/b" "f.txt") = none
    ∧ (∃ d, (FS.mk [(pjoin "/b" "f.txt", FileData.txt "hello")] ["/b"]).lookupFile
          (pjoin "/b" "f.txt") = some d
        ∧ (FS.mk [(pjoin (pjoin "/b" "Reports") "f.txt", FileData.txt "hello")]
            ["/b/Reports", "/b"]).lookupFile (pjoin (pjoin "/b" "Reports") "f.txt")
          = some d)
    ∧ ([] : List MoveEntry)
        ++ [{ original := pjoin "/b" "f.txt", new := pjoin (pjoin "/b" "Reports") "f.txt" }]
      = [] ++ [{ original := pjoin "/b" "f.txt", new := pjoin (pjoin "/b" "Reports") "f.txt" }] := by
  have h := C5_move_file_postconditions "/b" "Reports" "f.txt"
    (FS.mk [(pjoin "/b" "f.txt", FileData.txt "hello")] ["/b"]) []
    (FS.mk [(pjoin (pjoin "/b" "Reports") "f.txt", FileData.txt "hello")] ["/b/Reports", "/b"])
    ([] ++ [{ original := pjoin "/b" "f.txt", new := pjoin (pjoin "/b" "Reports") "f.txt" }])
    (by decide) (by decide) (by decide)
  exact ⟨h.1, h.2.1, h.2.2.1, rfl⟩

/-- C3 counterexample: a same-named file already sits at the
destination (`/b/Reports/f.txt` holds `dst data`), yet
`move_file_to_category` does not raise: it succeeds and the destination
now holds the moved file's content, the previous content being lost.
This refutes the claim that the move fails in this situation. -/
theorem C3_counterexample :
    (FS.mk [("/b/f.txt", FileData.txt "src data"),
            ("/b/Reports/f.txt", FileData.txt "dst data")]
        ["/b", "/b/Reports"]).lookupFile "/b/Reports/f.txt"
      = some (FileData.txt "dst data")
    ∧ move_file_to_category "/b" "Reports" "/b/f.txt"
        (FS.mk [("/b/f.txt", FileData.txt "src data"),
                ("/b/Reports/f.txt", FileData.txt "dst data")]
          ["/b", "/b/Reports"]) []
      = some (FS.mk [("/b/Reports/f.txt", FileData.txt "src data")] ["/b", "/b/Reports"],
          [{ original := "/b/f.txt", new := "/b/Reports/f.txt" }]) := by
  decide

/-- C3 amended: when a same-named file already exists at the
destination path (and that path is not a directory, and the category
path is not a file), `move_file_to_category` does not fail — it
succeeds, silently replaces the destination file with the moved file's
data (`os.rename` overwrite semantics inside `shutil.move`), and
appends the one rollback entry. -/
theorem C3_move_overwrites_existing (base c p : String) (fs : FS)
    (moved : List MoveEntry) (dNew dOld : FileData)
    (hsrc : fs.lookupFile p = some dNew)
    (_hdst : fs.lookupFile (pjoin (pjoin base c) (basenameStr p)) = some dOld)
    (hcat : fs.lookupFile (pjoin base c) = none)
    (hnotdir : fs.isDir (pjoin (pjoin base c) (basenameStr p)) = false) :
    ∃ fs2, move_file_to_category base c p fs moved
        = some (fs2,
            moved ++ [{ original := p, new := pjoin (pjoin base c) (basenameStr p) }])
      ∧ fs2.lookupFile (pjoin (pjoin base c) (basenameStr p)) = some dNew := by
  have hmk := makedirs_of_not_file hcat
  have hnd1 :
      (FS.mk fs.files
        (if pjoin base c ∈ fs.dirs then fs.dirs else pjoin base c :: fs.dirs)).isDir
        (pjoin (pjoin base c) (basenameStr p)) = false := by
    by_cases hmem : pjoin base c ∈ fs.dirs
    · simp only [FS.isDir, hmem, if_true]
      simpa [FS.isDir] using hnotdir
    · simp only [FS.isDir, hmem, if_false]
      simp only [List.mem_cons, decide_eq_false_iff_not]
      push_neg
      constructor
      · exact pjoin_ne_left (pjoin base c) (basenameStr p)
      · intro hmem2
        have : fs.isDir (pjoin (pjoin base c) (basenameStr p)) = true := by
          simp [FS.isDir, hmem2]
        rw [this] at hnotdir
        exact absurd hnotdir (by simp)
  have hsrc1 :
      (FS.mk fs.files
        (if pjoin base c ∈ fs.dirs then fs.dirs else pjoin base c :: fs.dirs)).lookupFile p
      = some dNew := hsrc
  refine ⟨((FS.mk fs.files
      (if pjoin base c ∈ fs.dirs then fs.dirs else pjoin base c :: fs.dirs)).removeFile
        p).setFile (pjoin (pjoin base c) (basenameStr p)) dNew, ?_, ?_⟩
  · simp only [move_file_to_category, hmk, shutil_move, hnd1, Bool.false_eq_true,
      if_false, hsrc1]
  · simp

/-- C3 amended, witness: the amended theorem applied to the concrete
collision scenario of the counterexample. -/
theorem C3_move_overwrites_existing_witness :
    ∃ fs2, move_file_to_category "/b" "Reports" "/b/f.txt"
        (FS.mk [("/b/f.txt", FileData.txt "src data"),
                ("/b/Reports/f.txt", FileData.txt "dst data")]
          ["/b", "/b/Reports"]) []
        = some (fs2,
            [] ++ [{ original := "/b/f.txt",
                     new := pjoin (pjoin "/b" "Reports") (basenameStr "/b/f.txt") }])
      ∧ fs2.lookupFile (pjoin (pjoin "/b" "Reports") (basenameStr "/b/f.txt"))
        = some (FileData.txt "src data") :=
  C3_move_overwrites_existing "/b" "Reports" "/b/f.txt"
    (FS.mk [("/b/f.txt", FileData.txt "src data"),
            ("/b/Reports/f.txt", FileData.txt "dst data")]
      ["/b", "/b/Reports"]) []
    (FileData.txt "src data") (FileData.txt "dst data")
    (by decide) (by decide) (by decide) (by decide)

/-- C4: with nothing at the rollback-log path (`os.path.exists` false),
`rollback_changes` leaves the filesystem untouched and prints the
diagnostic; with a persisted log recording the moves of `f1` and `f2`
(both still at their new paths, all involved paths distinct, originals
not directories, the log path not shadowed by a directory), it moves
each file back to its original path in stored order, deletes the log
file, and a second invocation is then a filesystem no-op that prints
"No rollback log found.". -/
theorem C4_rollback_two_files (base : String) (fs : FS)
    (e1 e2 : MoveEntry) (d1 d2 : FileData)
    (hlog : fs.lookupFile (rollback_log_path base) = some (FileData.log [e1, e2]))
    (h1 : fs.lookupFile e1.new = some d1)
    (h2 : fs.lookupFile e2.new = some d2)
    (hd1 : fs.isDir e1.original = false)
    (hd2 : fs.isDir e2.original = false)
    (hld : fs.isDir (rollback_log_path base) = false)
    (hne12 : e1.new ≠ e2.new)
    (hno1 : e1.original ≠ e1.new) (hno2 : e2.original ≠ e2.new)
    (hno12 : e1.original ≠ e2.new) (hno21 : e2.original ≠ e1.new)
    (hoo : e1.original ≠ e2.original)
    (hl1 : rollback_log_path base ≠ e1.new) (hl2 : rollback_log_path base ≠ e2.new)
    (hl3 : rollback_log_path base ≠ e1.original)
    (hl4 : rollback_log_path base ≠ e2.original) :
    (∀ fs0 : FS, fs0.exists (rollback_log_path base) = false →
        rollback_changes base fs0 = some (fs0, ["No rollback log found."]))
    ∧ ∃ fs2,
        rollback_changes base fs
          = some (fs2, ["Rolled back " ++ e1.new ++ " to " ++ e1.original,
                        "Rolled back " ++ e2.new ++ " to " ++ e2.original])
        ∧ fs2.lookupFile e1.original = some d1
        ∧ fs2.lookupFile e2.original = some d2
        ∧ fs2.lookupFile e1.new = none
        ∧ fs2.lookupFile e2.new = none
        ∧ fs2.lookupFile (rollback_log_path base) = none
        ∧ rollback_changes base fs2 = some (fs2, ["No rollback log found."]) := by
  constructor
  · intro fs0 h0
    simp [rollback_changes, h0]
  · have hexlog : fs.exists (rollback_log_path base) = true := by
      simp [FS.exists, FS.isFile, hlog]
    have hex1 : fs.exists e1.new = true := by
      simp [FS.exists, FS.isFile, h1]
    have hstep1 : rollback_entry_step fs e1
        = some ((fs.removeFile e1.new).setFile e1.original d1,
            ["Rolled back " ++ e1.new ++ " to " ++ e1.original]) := by
      simp only [rollback_entry_step, hex1, if_true, shutil_move, hd1,
        Bool.false_eq_true, if_false, h1]
    have hlk2 : ((fs.removeFile e1.new).setFile e1.original d1).lookupFile e2.new
        = some d2 := by
      rw [lookupFile_setFile_ne _ _ (Ne.symm hno12),
        lookupFile_removeFile_ne _ (Ne.symm hne12)]
      exact h2
    have hex2 : ((fs.removeFile e1.new).setFile e1.original d1).exists e2.new = true := by
      simp [FS.exists, FS.isFile, hlk2]
    have hd2b : ((fs.removeFile e1.new).setFile e1.original d1).isDir e2.original
        = false := by
      simpa using hd2
    have hstep2 : rollback_entry_step ((fs.removeFile e1.new).setFile e1.original d1) e2
        = some ((((fs.removeFile e1.new).setFile e1.original d1).removeFile
              e2.new).setFile e2.original d2,
            ["Rolled back " ++ e2.new ++ " to " ++ e2.original]) := by
      simp only [rollback_entry_step, hex2, if_true, shutil_move, hd2b,
        Bool.false_eq_true, if_false, hlk2]
    refine ⟨(((((fs.removeFile e1.new).setFile e1.original d1).removeFile
        e2.new).setFile e2.original d2).removeFile (rollback_log_path base)), ?_, ?_, ?_, ?_, ?_, ?_, ?_⟩
    · simp only [rollback_changes, hexlog, if_true, hlog, rollback_loop,
        hstep1, hstep2]
      simp
    · rw [lookupFile_removeFile_ne _ (Ne.symm hl3),
        lookupFile_setFile_ne _ _ hoo,
        lookupFile_removeFile_ne _ hno12]
      simp
    · rw [lookupFile_removeFile_ne _ (Ne.symm hl4)]
      simp
    · rw [lookupFile_removeFile_ne _ (Ne.symm hl1),
        lookupFile_setFile_ne _ _ (Ne.symm hno21),
        lookupFile_removeFile_ne _ hne12,
        lookupFile_setFile_ne _ _ (Ne.symm hno1)]
      simp
    · rw [lookupFile_removeFile_ne _ (Ne.symm hl2),
        lookupFile_setFile_ne _ _ (Ne.symm hno2)]
      simp
    · simp
    · have hgone2 :
          ((((((fs.removeFile e1.new).setFile e1.original d1).removeFile
              e2.new).setFile e2.original d2).removeFile
                (rollback_log_path base))).exists (rollback_log_path base)
            = false := by
        simp [FS.exists, FS.isFile, hld]
      simp [rollback_changes, hgone2]

/-- C4 witness: the two-file rollback theorem at a concrete filesystem. -/
theorem C4_rollback_two_files_witness :
    (∀ fs0 : FS, fs0.exists (rollback_log_path "/b") = false →
        rollback_changes "/b" fs0 = some (fs0, ["No rollback log found."]))
    ∧ ∃ fs2,
        rollback_changes "/b"
            (FS.mk [("/b/rollback_log.json",
                      FileData.log [{ original := "/b/f1.txt", new := "/b/Reports/f1.txt" },
                                    { original := "/b/f2.txt", new := "/b/Memos/f2.txt" }]),
                    ("/b/Reports/f1.txt", FileData.txt "one"),
                    ("/b/Memos/f2.txt", FileData.txt "two")]
              ["/b", "/b/Reports", "/b/Memos"])
          = some (fs2, ["Rolled back " ++ "/b/Reports/f1.txt" ++ " to " ++ "/b/f1.txt",
                        "Rolled back " ++ "/b/Memos/f2.txt" ++ " to " ++ "/b/f2.txt"])
        ∧ fs2.lookupFile "/b/f1.txt" = some (FileData.txt "one")
        ∧ fs2.lookupFile "/b/f2.txt" = some (FileData.txt "two")
        ∧ fs2.lookupFile "/b/Reports/f1.txt" = none
        ∧ fs2.lookupFile "/b/Memos/f2.txt" = none
        ∧ fs2.lookupFile (rollback_log_path "/b") = none
        ∧ rollback_changes "/b" fs2 = some (fs2, ["No rollback log found."]) :=
  C4_rollback_two_files "/b"
    (FS.mk [("/b/rollback_log.json",
              FileData.log [{ original := "/b/f1.txt", new := "/b/Reports/f1.txt" },
                            { original := "/b/f2.txt", new := "/b/Memos/f2.txt" }]),
            ("/b/Reports/f1.txt", FileData.txt "one"),
            ("/b/Memos/f2.txt", FileData.txt "two")]
      ["/b", "/b/Reports", "/b/Memos"])
    { original := "/b/f1.txt", new := "/b/Reports/f1.txt" }
    { original := "/b/f2.txt", new := "/b/Memos/f2.txt" }
    (FileData.txt "one") (FileData.txt "two")
    (by decide) (by decide) (by decide) (by decide) (by decide) (by decide)
    (by decide) (by decide) (by decide) (by decide) (by decide) (by decide)
    (by decide) (by decide) (by decide) (by decide)

theorem retryLoop_succ_ok {post : Nat → Option String} {wait a r : Nat} {s : String}
    (h : post a = some s) :
    retryLoop post wait a (r + 1) = ⟨Except.ok (pyStrip s), [], 1⟩ := by
  simp [retryLoop, h]

theorem retryLoop_succ_fail {post : Nat → Option String} {wait a r : Nat}
    (h : post a = none) :
    retryLoop post wait a (r + 1)
      = ⟨(retryLoop post wait (a + 1) r).result,
          wait :: (retryLoop post wait (a + 1) r).sleeps,
          (retryLoop post wait (a + 1) r).attempts + 1⟩ := by
  simp [retryLoop, h]

/-- C2 counterexample: the HTTP request fails on the first three
attempts and would succeed on the fourth, yet with the default
`retries=3` the client raises the exhausted-retries error after three
attempts — it never makes the fourth attempt the claim's success case
requires. -/
theorem C2_counterexample :
    (categorize_text_with_deepseek
        (fun attempt _ => if attempt < 3 then none else some "Docs")
        [] "f.txt" "text").result
      = Except.error "Failed after multiple retries due to API issues."
    ∧ (categorize_text_with_deepseek
        (fun attempt _ => if attempt < 3 then none else some "Docs")
        [] "f.txt" "text").attempts = 3 := by
  constructor
  · rfl
  · rfl

/-- C2 amended: with the defaults `retries=3`, `wait=5`, the client
makes at most 3 HTTP attempts in total.  If the first `k < 3` attempts
fail and attempt `k` succeeds, it returns the stripped response after
`k` failures, having slept 5 time-units after each failure; if all 3
attempts fail it sleeps after each of the three failures and raises
"Failed after multiple retries due to API issues." — regardless of
whether a fourth attempt would have succeeded. -/
theorem C2_retry_bound (post : Nat → String → Option String)
    (existing : List String) (filename text : String) :
    (∀ k s, k < 3 →
      (∀ i, i < k → post i (categorize_prompt filename text existing) = none) →
      post k (categorize_prompt filename text existing) = some s →
      categorize_text_with_deepseek post existing filename text
        = ⟨Except.ok (pyStrip s), List.replicate k 5, k + 1⟩)
    ∧ ((∀ i, i < 3 → post i (categorize_prompt filename text existing) = none) →
      categorize_text_with_deepseek post existing filename text
        = ⟨Except.error "Failed after multiple retries due to API issues.",
            List.replicate 3 5, 3⟩) := by
  constructor
  · intro k s hk hfail hok
    interval_cases k
    · rw [categorize_text_with_deepseek]
      rw [show (3 : Nat) = 2 + 1 from rfl, retryLoop_succ_ok hok]
      rfl
    · have h0 : post 0 (categorize_prompt filename text existing) = none :=
        hfail 0 (by omega)
      rw [categorize_text_with_deepseek]
      rw [show (3 : Nat) = 2 + 1 from rfl, retryLoop_succ_fail h0,
        show (2 : Nat) = 1 + 1 from rfl, retryLoop_succ_ok hok]
      rfl
    · have h0 : post 0 (categorize_prompt filename text existing) = none :=
        hfail 0 (by omega)
      have h1 : post 1 (categorize_prompt filename text existing) = none :=
        hfail 1 (by omega)
      rw [categorize_text_with_deepseek]
      rw [show (3 : Nat) = 2 + 1 from rfl, retryLoop_succ_fail h0,
        show (2 : Nat) = 1 + 1 from rfl, retryLoop_succ_fail h1,
        show (1 : Nat) = 0 + 1 from rfl, retryLoop_succ_ok hok]
      rfl
  · intro hfail
    have h0 : post 0 (categorize_prompt filename text existing) = none :=
      hfail 0 (by omega)
    have h1 : post 1 (categorize_prompt filename text existing) = none :=
      hfail 1 (by omega)
    have h2 : post 2 (categorize_prompt filename text existing) = none :=
      hfail 2 (by omega)
    rw [categorize_text_with_deepseek]
    rw [show (3 : Nat) = 2 + 1 from rfl, retryLoop_succ_fail h0,
      show (2 : Nat) = 1 + 1 from rfl, retryLoop_succ_fail h1,
      show (1 : Nat) = 0 + 1 from rfl, retryLoop_succ_fail h2]
    rfl

/-- C2 amended, witness: one failure then a success on the second
attempt returns the response after a single 5-unit delay and 2
attempts. -/
theorem C2_retry_bound_witness :
    categorize_text_with_deepseek
        (fun attempt _ => if attempt = 0 then none else some "Invoices")
        [] "f.txt" "text"
      = ⟨Except.ok (pyStrip "Invoices"), List.replicate 1 5, 1 + 1⟩ :=
  (C2_retry_bound (fun attempt _ => if attempt = 0 then none else some "Invoices")
      [] "f.txt" "text").1 1 "Invoices" (by omega)
    (by
      intro i hi
      have hi0 : i = 0 := by omega
      rw [hi0]
      rfl)
    rfl

set_option maxRecDepth 100000 in
/-- C1: when the PDF extractor yields the chunks `["x", "x", "y"]`, a
classifier that would label each individual chunk `"A"` (so the
majority vote of the spec's resolver is `"A"`) but answers `"B"` to
the one request the code actually sends — whose text is the Python
`str` of the whole chunk list — makes `organize_files` categorize the
file as `"B"`.  The code classifies once per file, never per chunk, so
the per-file category is not the majority chunk label the claim
requires. -/
theorem C1_single_call_not_majority :
    (organize_categorize_call
        (fun _ prompt =>
          some (if prompt = categorize_prompt "doc.pdf" (pyStrList ["x", "x", "y"]) []
            then "B" else "A"))
        [] "doc.pdf" (ExtractResult.chunks ["x", "x", "y"])).result
      = Except.ok "B"
    ∧ (["x", "x", "y"].map (fun c =>
        (chunkClassification
          (fun _ prompt =>
            some (if prompt = categorize_prompt "doc.pdf" (pyStrList ["x", "x", "y"]) []
              then "B" else "A"))
          [] "doc.pdf" c).result))
      = [Except.ok "A", Except.ok "A", Except.ok "A"]
    ∧ resolve ["A", "A", "A"] = "A"
    ∧ ("B" : String) ≠ "A" := by
  refine ⟨?_, ?_, ?_, ?_⟩
  · rfl
  · rfl
  · decide
  · decide

/-- C9: every completed `organize_files` run ends by writing
`base/rollback_log.json` with exactly the current run's in-memory move
list, whatever the file held before; a run that processes no items
(here: an empty listing) leaves the move list empty, so the persisted
log of the previous run is replaced by the empty list. -/
theorem C9_log_overwritten_each_run (cfg : Config)
    (categorize : String → ExtractResult → List String → String)
    (all_items : List String) (fs0 : FS) :
    (∀ st, organize_files cfg categorize all_items fs0 = some st →
      st.fs.lookupFile (rollback_log_path cfg.base)
        = some (FileData.log st.moved_files))
    ∧ (∀ st, organize_files cfg categorize [] fs0 = some st →
      st.moved_files = []
      ∧ st.fs.lookupFile (rollback_log_path cfg.base) = some (FileData.log [])) := by
  constructor
  · intro st h
    unfold organize_files at h
    cases hl : organize_loop cfg categorize
        { fs := fs0, moved_files := [],
          existing_dirs := refresh_existing_dirs cfg.base cfg.excluded_dirs fs0,
          processed := [] } all_items with
    | none => rw [hl] at h; exact absurd h (by simp)
    | some st1 =>
      rw [hl] at h
      simp only [Option.some_inj] at h
      subst h
      simp [save_rollback_log]
  · intro st h
    unfold organize_files organize_loop at h
    simp only [Option.some_inj] at h
    subst h
    exact ⟨rfl, by simp [save_rollback_log]⟩

/-- C9 witness: over a base holding a previous run's log and one
unsupported file, a completed run (and likewise a run over an empty
listing) leaves `rollback_log.json` holding the empty move list. -/
theorem C9_log_overwritten_each_run_witness :
    (FS.mk [("/b/rollback_log.json", FileData.log []),
        ("/b/weird.xyz", FileData.txt "w")] ["/b"]).lookupFile
      (rollback_log_path "/b") = some (FileData.log [])
    ∧ ([] : List MoveEntry) = [] := by
  constructor
  · exact (C9_log_overwritten_each_run ⟨"/b", [], []⟩ (fun _ _ _ => "Notes")
      ["weird.xyz"]
      (FS.mk [("/b/rollback_log.json",
          FileData.log [{ original := "/b/old.txt", new := "/b/X/old.txt" }]),
        ("/b/weird.xyz", FileData.txt "w")] ["/b"])).1
      (OState.mk (FS.mk [("/b/rollback_log.json", FileData.log []),
          ("/b/weird.xyz", FileData.txt "w")] ["/b"]) [] ["b"] [])
      (by decide)
  · exact ((C9_log_overwritten_each_run ⟨"/b", [], []⟩ (fun _ _ _ => "Notes")
      ["weird.xyz"]
      (FS.mk [("/b/rollback_log.json",
          FileData.log [{ original := "/b/old.txt", new := "/b/X/old.txt" }]),
        ("/b/weird.xyz", FileData.txt "w")] ["/b"])).2
      (OState.mk (FS.mk [("/b/rollback_log.json", FileData.log []),
          ("/b/weird.xyz", FileData.txt "w")] ["/b"]) [] ["b"] [])
      (by decide)).1

theorem pjoin_assoc (a b c : String) : pjoin (pjoin a b) c = pjoin a (b ++ "/" ++ c) := by
  apply string_data_inj
  simp [pjoin, List.append_assoc]

theorem slash_mem_mid (b c : String) : slashChar ∈ (b ++ "/" ++ c).data := by
  simp [slashChar]

theorem pjoin_child_ne_of_slash {name t : String} (hname : slashChar ∉ name.data)
    (ht : slashChar ∈ t.data) (base : String) : pjoin base name ≠ pjoin base t := by
  intro h
  have he := pjoin_right_inj h
  rw [he] at hname
  exact hname ht

theorem shutil_move_pres {src dst : String} {fs fs2 : FS}
    (h : shutil_move src dst fs = some fs2) (q : String)
    (hq1 : q ≠ src) (hq2 : q ≠ dst) (hq3 : q ≠ pjoin dst (basenameStr src)) :
    fs2.lookupFile q = fs.lookupFile q := by
  cases hd : fs.isDir dst with
  | false =>
    simp only [shutil_move, hd, Bool.false_eq_true, if_false] at h
    cases hs : fs.lookupFile src with
    | none => rw [hs] at h; exact absurd h (by simp)
    | some d =>
      rw [hs] at h
      simp only [Option.some_inj] at h
      rw [← h, lookupFile_setFile_ne _ _ hq2, lookupFile_removeFile_ne _ hq1]
  | true =>
    simp only [shutil_move, hd, if_true] at h
    cases hex : fs.exists (pjoin dst (basenameStr src)) with
    | true => rw [hex] at h; exact absurd h (by simp)
    | false =>
      rw [hex] at h
      simp only [Bool.false_eq_true, if_false] at h
      cases hs : fs.lookupFile src with
      | none => rw [hs] at h; exact absurd h (by simp)
      | some d =>
        rw [hs] at h
        simp only [Option.some_inj] at h
        rw [← h, lookupFile_setFile_ne _ _ hq3, lookupFile_removeFile_ne _ hq1]

theorem move_some_decomp {base c p : String} {fs : FS} {moved : List MoveEntry}
    {fs2 : FS} {moved2 : List MoveEntry}
    (h : move_file_to_category base c p fs moved = some (fs2, moved2)) :
    moved2 = moved ++ [{ original := p, new := pjoin (pjoin base c) (basenameStr p) }]
    ∧ ∀ q, q ≠ p → q ≠ pjoin (pjoin base c) (basenameStr p) →
        q ≠ pjoin (pjoin (pjoin base c) (basenameStr p)) (basenameStr p) →
        fs2.lookupFile q = fs.lookupFile q := by
  cases hmk : makedirs (pjoin base c) fs with
  | none => simp [move_file_to_category, hmk] at h
  | some fs1 =>
    obtain ⟨hfiles, -, -⟩ := makedirs_some hmk
    have hlook1 : ∀ q, fs1.lookupFile q = fs.lookupFile q := by
      intro q; simp [FS.lookupFile, hfiles]
    simp only [move_file_to_category, hmk] at h
    cases hs : shutil_move p (pjoin (pjoin base c) (basenameStr p)) fs1 with
    | none => rw [hs] at h; exact absurd h (by simp)
    | some fs2b =>
      rw [hs] at h
      simp only [Option.some_inj, Prod.mk.injEq] at h
      obtain ⟨hfs, hm⟩ := h
      refine ⟨hm.symm, ?_⟩
      intro q hq1 hq2 hq3
      rw [← hfs, shutil_move_pres hs q hq1 hq2 hq3, hlook1]

theorem organizeStep_processed {cfg : Config}
    {categorize : String → ExtractResult → List String → String}
    {st st1 : OState} {fn : String}
    (h : organizeStep cfg categorize st fn = some st1) :
    st1.processed = st.processed ∨ st1.processed = st.processed ++ [fn] := by
  cases hsa : stepAction cfg st.fs fn with
  | processFile ext d =>
    simp only [organizeStep, hsa] at h
    cases hre : runExtractor ext d with
    | none => rw [hre] at h; exact absurd h (by simp)
    | some tc =>
      rw [hre] at h
      simp only [] at h
      cases hmv : move_file_to_category cfg.base (categorize fn tc st.existing_dirs)
          (pjoin cfg.base fn) st.fs st.moved_files with
      | none => rw [hmv] at h; exact absurd h (by simp)
      | some pr =>
        obtain ⟨fs2, moved2⟩ := pr
        rw [hmv] at h
        simp only [Option.some_inj] at h
        right
        rw [← h]
  | skipNotListed =>
    simp only [organizeStep, hsa, Option.some_inj] at h
    left; rw [← h]
  | skipUnsupported =>
    simp only [organizeStep, hsa, Option.some_inj] at h
    left; rw [← h]
  | dirBranch =>
    simp only [organizeStep, hsa, Option.some_inj] at h
    left; rw [← h]

theorem organizeStep_processed_of_process {cfg : Config}
    {categorize : String → ExtractResult → List String → String}
    {st st1 : OState} {fn ext : String} {d : FileData}
    (hsa : stepAction cfg st.fs fn = StepAction.processFile ext d)
    (h : organizeStep cfg categorize st fn = some st1) :
    st1.processed = st.processed ++ [fn] := by
  simp only [organizeStep, hsa] at h
  cases hre : runExtractor ext d with
  | none => rw [hre] at h; exact absurd h (by simp)
  | some tc =>
    rw [hre] at h
    simp only [] at h
    cases hmv : move_file_to_category cfg.base (categorize fn tc st.existing_dirs)
        (pjoin cfg.base fn) st.fs st.moved_files with
    | none => rw [hmv] at h; exact absurd h (by simp)
    | some pr =>
      obtain ⟨fs2, moved2⟩ := pr
      rw [hmv] at h
      simp only [Option.some_inj] at h
      rw [← h]

theorem organizeStep_fs_other {cfg : Config}
    {categorize : String → ExtractResult → List String → String}
    {st st1 : OState} {fn : String}
    (h : organizeStep cfg categorize st fn = some st1)
    {name : String} (hname : slashChar ∉ name.data) (hne : fn ≠ name) :
    st1.fs.lookupFile (pjoin cfg.base name)
      = st.fs.lookupFile (pjoin cfg.base name) := by
  cases hsa : stepAction cfg st.fs fn with
  | processFile ext d =>
    simp only [organizeStep, hsa] at h
    cases hre : runExtractor ext d with
    | none => rw [hre] at h; exact absurd h (by simp)
    | some tc =>
      rw [hre] at h
      simp only [] at h
      cases hmv : move_file_to_category cfg.base (categorize fn tc st.existing_dirs)
          (pjoin cfg.base fn) st.fs st.moved_files with
      | none => rw [hmv] at h; exact absurd h (by simp)
      | some pr =>
        obtain ⟨fs2, moved2⟩ := pr
        rw [hmv] at h
        simp only [Option.some_inj] at h
        obtain ⟨-, hpres⟩ := move_some_decomp hmv
        rw [← h]
        apply hpres
        · exact fun he => hne (pjoin_right_inj he).symm
        · rw [pjoin_assoc]
          exact pjoin_child_ne_of_slash hname (slash_mem_mid _ _) cfg.base
        · rw [pjoin_assoc, pjoin_assoc]
          exact pjoin_child_ne_of_slash hname (slash_mem_mid _ _) cfg.base
  | skipNotListed =>
    simp only [organizeStep, hsa, Option.some_inj] at h
    rw [← h]
  | skipUnsupported =>
    simp only [organizeStep, hsa, Option.some_inj] at h
    rw [← h]
  | dirBranch =>
    simp only [organizeStep, hsa, Option.some_inj] at h
    rw [← h]

theorem organize_loop_append (cfg : Config)
    (categorize : String → ExtractResult → List String → String)
    (l1 l2 : List String) :
    ∀ st, organize_loop cfg categorize st (l1 ++ l2)
      = (organize_loop cfg categorize st l1).bind
          (fun st1 => organize_loop cfg categorize st1 l2) := by
  induction l1 with
  | nil => intro st; simp [organize_loop]
  | cons n ns ih =>
    intro st
    simp only [List.cons_append, organize_loop]
    cases organizeStep cfg categorize st n with
    | none => simp
    | some st1 => simp [ih st1]

theorem organize_loop_other {cfg : Config}
    {categorize : String → ExtractResult → List String → String}
    {name : String} (hname : slashChar ∉ name.data) :
    ∀ (l : List String), name ∉ l → ∀ st st1,
      organize_loop cfg categorize st l = some st1 →
      st1.fs.lookupFile (pjoin cfg.base name) = st.fs.lookupFile (pjoin cfg.base name)
      ∧ (name ∈ st1.processed ↔ name ∈ st.processed) := by
  intro l
  induction l with
  | nil =>
    intro _ st st1 h
    simp only [organize_loop, Option.some_inj] at h
    rw [← h]
    exact ⟨rfl, Iff.rfl⟩
  | cons n ns ih =>
    intro hnot st st1 h
    have hneq : n ≠ name := fun he => hnot (by simp [he])
    have hns : name ∉ ns := fun hm => hnot (by simp [hm])
    simp only [organize_loop] at h
    cases hstep : organizeStep cfg categorize st n with
    | none => rw [hstep] at h; exact absurd h (by simp)
    | some stmid =>
      rw [hstep] at h
      obtain ⟨hfs, hproc⟩ := ih hns stmid st1 h
      constructor
      · rw [hfs, organizeStep_fs_other hstep hname hneq]
      · rw [hproc]
        rcases organizeStep_processed hstep with he | he
        · rw [he]
        · rw [he]
          have : name ≠ n := Ne.symm hneq
          simp [this]

theorem stepAction_skip_of_restricted {cfg : Config} {fs : FS} {name : String}
    (hcfg : cfg.files_to_organize ≠ []) (hnotin : name ∉ cfg.files_to_organize) :
    stepAction cfg fs name = StepAction.skipNotListed := by
  simp [stepAction, hcfg, hnotin]

theorem organize_loop_restricted {cfg : Config}
    {categorize : String → ExtractResult → List String → String}
    {name : String} (hcfg : cfg.files_to_organize ≠ [])
    (hnotin : name ∉ cfg.files_to_organize) (hname : slashChar ∉ name.data) :
    ∀ (l : List String) st st1,
      organize_loop cfg categorize st l = some st1 →
      st1.fs.lookupFile (pjoin cfg.base name) = st.fs.lookupFile (pjoin cfg.base name)
      ∧ (name ∈ st1.processed ↔ name ∈ st.processed) := by
  intro l
  induction l with
  | nil =>
    intro st st1 h
    simp only [organize_loop, Option.some_inj] at h
    rw [← h]
    exact ⟨rfl, Iff.rfl⟩
  | cons n ns ih =>
    intro st st1 h
    simp only [organize_loop] at h
    cases hstep : organizeStep cfg categorize st n with
    | none => rw [hstep] at h; exact absurd h (by simp)
    | some stmid =>
      rw [hstep] at h
      obtain ⟨hfs, hproc⟩ := ih stmid st1 h
      by_cases hneq : n = name
      · subst hneq
        have hskip : organizeStep cfg categorize st n = some st := by
          simp [organizeStep, stepAction_skip_of_restricted hcfg hnotin]
        rw [hskip] at hstep
        simp only [Option.some_inj] at hstep
        rw [← hstep] at hfs hproc
        exact ⟨hfs, hproc⟩
      · constructor
        · rw [hfs, organizeStep_fs_other hstep hname hneq]
        · rw [hproc]
          rcases organizeStep_processed hstep with he | he
          · rw [he]
          · rw [he]
            have : name ≠ n := Ne.symm hneq
            simp [this]

/-- C6: (a) when `.files_to_organize` is non-empty, a slash-free name
absent from it (and different from the log-file name) is never
processed, and the file at `base/name` is byte-for-byte untouched by a
completed run; (b) when the list is empty, a completed run processes a
listed name exactly when it is a regular file of the base directory
with a supported extension. -/
theorem C6_include_list (cfg : Config)
    (categorize : String → ExtractResult → List String → String)
    (all_items : List String) (fs0 : FS) :
    (∀ name st1, cfg.files_to_organize ≠ [] → name ∉ cfg.files_to_organize →
      slashChar ∉ name.data → name ≠ rollback_log_name →
      organize_files cfg categorize all_items fs0 = some st1 →
      name ∉ st1.processed
      ∧ st1.fs.lookupFile (pjoin cfg.base name)
        = fs0.lookupFile (pjoin cfg.base name))
    ∧ (∀ name st1, cfg.files_to_organize = [] → all_items.Nodup →
      name ∈ all_items → slashChar ∉ name.data →
      organize_files cfg categorize all_items fs0 = some st1 →
      (name ∈ st1.processed ↔
        (fs0.lookupFile (pjoin cfg.base name)).isSome = true
          ∧ detectedType name ∈ supportedExts)) := by
  constructor
  · intro name st1 hcfg hnotin hname hlogname h
    unfold organize_files at h
    cases hl : organize_loop cfg categorize
        { fs := fs0, moved_files := [],
          existing_dirs := refresh_existing_dirs cfg.base cfg.excluded_dirs fs0,
          processed := [] } all_items with
    | none => rw [hl] at h; exact absurd h (by simp)
    | some stL =>
      rw [hl] at h
      simp only [Option.some_inj] at h
      obtain ⟨hfs, hproc⟩ := organize_loop_restricted hcfg hnotin hname all_items _ _ hl
      have hqlog : pjoin cfg.base name ≠ rollback_log_path cfg.base := by
        intro he
        exact hlogname (pjoin_right_inj he)
      constructor
      · rw [← h]
        intro hmem
        have hmem2 : name ∈ stL.processed := hmem
        have h3 := hproc.mp hmem2
        simp at h3
      · rw [← h]
        show (stL.fs.setFile (rollback_log_path cfg.base)
            (FileData.log stL.moved_files)).lookupFile (pjoin cfg.base name)
          = fs0.lookupFile (pjoin cfg.base name)
        rw [lookupFile_setFile_ne _ _ hqlog]
        exact hfs
  · intro name st1 hcfg hnodup hmem hname h
    obtain ⟨l1, l2, hsplit⟩ := List.append_of_mem hmem
    subst hsplit
    rw [List.nodup_append] at hnodup
    obtain ⟨hn1, hn2, hdisj⟩ := hnodup
    have hnotin1 : name ∉ l1 := fun hm => hdisj hm (List.mem_cons_self name l2)
    have hnotin2 : name ∉ l2 := (List.nodup_cons.mp hn2).1
    unfold organize_files at h
    cases hl : organize_loop cfg categorize
        { fs := fs0, moved_files := [],
          existing_dirs := refresh_existing_dirs cfg.base cfg.excluded_dirs fs0,
          processed := [] } (l1 ++ name :: l2) with
    | none => rw [hl] at h; exact absurd h (by simp)
    | some stL =>
      rw [hl] at h
      simp only [Option.some_inj] at h
      rw [organize_loop_append] at hl
      cases hlA : organize_loop cfg categorize
          { fs := fs0, moved_files := [],
            existing_dirs := refresh_existing_dirs cfg.base cfg.excluded_dirs fs0,
            processed := [] } l1 with
      | none => rw [hlA] at hl; exact absurd hl (by simp)
      | some stA =>
        rw [hlA] at hl
        simp only [Option.some_bind] at hl
        obtain ⟨hfsA, hprocA⟩ := organize_loop_other hname l1 hnotin1 _ _ hlA
        have hnameA : name ∉ stA.processed := by
          intro hm
          have h2 := hprocA.mp hm
          simp at h2
        have hlookA : stA.fs.lookupFile (pjoin cfg.base name)
            = fs0.lookupFile (pjoin cfg.base name) := hfsA
        simp only [organize_loop] at hl
        cases hstep : organizeStep cfg categorize stA name with
        | none => rw [hstep] at hl; exact absurd hl (by simp)
        | some stB =>
          rw [hstep] at hl
          obtain ⟨-, hprocL⟩ := organize_loop_other hname l2 hnotin2 _ _ hl
          have hgoal : name ∈ st1.processed ↔ name ∈ stB.processed := by
            rw [← h]
            exact hprocL
          rw [hgoal]
          cases hlook0 : fs0.lookupFile (pjoin cfg.base name) with
          | none =>
            have hlookA2 : stA.fs.lookupFile (pjoin cfg.base name) = none :=
              hlookA.trans hlook0
            have hsa : stepAction cfg stA.fs name = StepAction.dirBranch := by
              simp [stepAction, hcfg, hlookA2]
            have hskip : organizeStep cfg categorize stA name = some stA := by
              simp [organizeStep, hsa]
            rw [hskip] at hstep
            simp only [Option.some_inj] at hstep
            rw [← hstep]
            simp [hnameA]
          | some d =>
            have hlookA2 : stA.fs.lookupFile (pjoin cfg.base name) = some d :=
              hlookA.trans hlook0
            by_cases hsup : detectedType name ∈ supportedExts
            · have hsa : stepAction cfg stA.fs name
                  = StepAction.processFile (detectedType name) d := by
                simp [stepAction, hcfg, hlookA2, hsup]
              have hpr := organizeStep_processed_of_process hsa hstep
              rw [hpr]
              simp [hsup]
            · have hsa : stepAction cfg stA.fs name = StepAction.skipUnsupported := by
                simp [stepAction, hcfg, hlookA2, hsup]
              have hskip : organizeStep cfg categorize stA name = some stA := by
                simp [organizeStep, hsa]
              rw [hskip] at hstep
              simp only [Option.some_inj] at hstep
              rw [← hstep]
              simp [hnameA, hsup]

/-- C6 witness: with `.files_to_organize = ["report.pdf"]` and items
`report.pdf`, `notes.txt`, the completed run leaves `notes.txt`
unprocessed and untouched; with an empty include-list, `notes.txt` is
processed exactly because it is a supported regular file. -/
theorem C6_include_list_witness :
    ("notes.txt" ∉ (["report.pdf"] : List String)
      ∧ (FS.mk [("/b/rollback_log.json",
            FileData.log [{ original := "/b/report.pdf", new := "/b/Reports/report.pdf" }]),
          ("/b/Reports/report.pdf", FileData.pdfPages ["hello"]),
          ("/b/notes.txt", FileData.txt "n")] ["/b/Reports", "/b"]).lookupFile
          (pjoin "/b" "notes.txt")
        = (FS.mk [("/b/report.pdf", FileData.pdfPages ["hello"]),
            ("/b/notes.txt", FileData.txt "n")] ["/b"]).lookupFile
          (pjoin "/b" "notes.txt"))
    ∧ ("notes.txt" ∈ (["report.pdf", "notes.txt"] : List String)
      ↔ ((FS.mk [("/b/report.pdf", FileData.pdfPages ["hello"]),
            ("/b/notes.txt", FileData.txt "n")] ["/b"]).lookupFile
          (pjoin "/b" "notes.txt")).isSome = true
        ∧ detectedType "notes.txt" ∈ supportedExts) := by
  constructor
  · have hA := (C6_include_list (Config.mk "/b" ["report.pdf"] [])
      (fun _ _ _ => "Reports") ["report.pdf", "notes.txt"]
      (FS.mk [("/b/report.pdf", FileData.pdfPages ["hello"]),
        ("/b/notes.txt", FileData.txt "n")] ["/b"])).1
      "notes.txt"
      (OState.mk (FS.mk [("/b/rollback_log.json",
          FileData.log [{ original := "/b/report.pdf", new := "/b/Reports/report.pdf" }]),
        ("/b/Reports/report.pdf", FileData.pdfPages ["hello"]),
        ("/b/notes.txt", FileData.txt "n")] ["/b/Reports", "/b"])
        [{ original := "/b/report.pdf", new := "/b/Reports/report.pdf" }]
        ["b", "Reports"] ["report.pdf"])
      (by decide) (by decide) (by decide) (by decide) (by decide)
    exact hA
  · have hB := (C6_include_list (Config.mk "/b" [] [])
      (fun _ _ _ => "Reports") ["report.pdf", "notes.txt"]
      (FS.mk [("/b/report.pdf", FileData.pdfPages ["hello"]),
        ("/b/notes.txt", FileData.txt "n")] ["/b"])).2
      "notes.txt"
      (OState.mk (FS.mk [("/b/rollback_log.json",
          FileData.log [{ original := "/b/report.pdf", new := "/b/Reports/report.pdf" },
            { original := "/b/notes.txt", new := "/b/Reports/notes.txt" }]),
        ("/b/Reports/notes.txt", FileData.txt "n"),
        ("/b/Reports/report.pdf", FileData.pdfPages ["hello"])] ["/b/Reports", "/b"])
        [{ original := "/b/report.pdf", new := "/b/Reports/report.pdf" },
          { original := "/b/notes.txt", new := "/b/Reports/notes.txt" }]
        ["b", "Reports"] ["report.pdf", "notes.txt"])
      rfl (by decide) (by decide) (by decide) (by decide)
    exact hB

theorem takeWhile_of_all {α : Type} {p : α → Bool} :
    ∀ {l : List α}, (∀ x ∈ l, p x = true) → l.takeWhile p = l := by
  intro l
  induction l with
  | nil => intro _; rfl
  | cons x xs ih =>
    intro h
    have hx : p x = true := h x (by simp)
    simp [List.takeWhile, hx, ih (fun a ha => h a (by simp [ha]))]

theorem takeWhile_append_of_stop {α : Type} {p : α → Bool} {y : α}
    (hy : p y = false) : ∀ (xs ys : List α),
    (xs ++ y :: ys).takeWhile p = xs.takeWhile p := by
  intro xs ys
  induction xs with
  | nil => simp [List.takeWhile, hy]
  | cons x xs ih =>
    cases hx : p x with
    | true => simp [List.takeWhile, hx, ih]
    | false => simp [List.takeWhile, hx]

theorem takeWhile_append_of_exists_false {α : Type} {p : α → Bool} :
    ∀ {xs : List α}, (∃ x ∈ xs, p x = false) → ∀ (ys : List α),
    (xs ++ ys).takeWhile p = xs.takeWhile p := by
  intro xs
  induction xs with
  | nil => intro h; exact absurd h (by simp)
  | cons x xs ih =>
    intro h ys
    cases hx : p x with
    | false => simp [List.takeWhile, hx]
    | true =>
      obtain ⟨a, ha, hpa⟩ := h
      rcases List.mem_cons.mp ha with he | hm
      · rw [he] at hpa; rw [hpa] at hx; exact absurd hx (by simp)
      · simp [List.takeWhile, hx, ih ⟨a, hm, hpa⟩]

theorem pySplit_of_not_mem {sep : Char} : ∀ {cs : List Char}, sep ∉ cs →
    pySplit sep cs = [cs] := by
  intro cs
  induction cs with
  | nil => intro _; rfl
  | cons c rest ih =>
    intro h
    have hc : ¬ c = sep := fun he => h (by simp [he])
    have hrest : sep ∉ rest := fun hm => h (by simp [hm])
    simp [pySplit, ih hrest, hc]

theorem pySplit_two_le {sep : Char} : ∀ {cs : List Char}, sep ∈ cs →
    2 ≤ (pySplit sep cs).length := by
  intro cs
  induction cs with
  | nil => intro h; exact absurd h (by simp)
  | cons c rest ih =>
    intro h
    simp only [pySplit]
    cases hps : pySplit sep rest with
    | nil => exact absurd hps (pySplit_ne_nil sep rest)
    | cons hd tl =>
      by_cases hc : c = sep
      · simp [hc]
      · have hrest : sep ∈ rest := by
          rcases List.mem_cons.mp h with he | hm
          · exact absurd he.symm hc
          · exact hm
        have h2 := ih hrest
        rw [hps] at h2
        simp only [List.length_cons] at h2 ⊢
        simp [hc]
        omega

theorem getLastD_of_ne_nil {α : Type} {t : List α} (h : t ≠ []) (a b : α) :
    t.getLastD a = t.getLastD b := by
  cases t with
  | nil => exact absurd rfl h
  | cons x xs =>
    rw [List.getLastD_cons, List.getLastD_cons]

theorem pySplit_cons (sep c : Char) (rest : List Char) {hd : List Char}
    {tl : List (List Char)} (hps : pySplit sep rest = hd :: tl) :
    pySplit sep (c :: rest)
      = if c = sep then [] :: hd :: tl else (c :: hd) :: tl := by
  simp [pySplit, hps]

theorem pySplit_getLast (sep : Char) :
    ∀ (cs : List Char), (pySplit sep cs).getLastD [] = afterLastSep sep cs := by
  intro cs
  induction cs with
  | nil => rfl
  | cons c rest ih =>
    cases hps : pySplit sep rest with
    | nil => exact absurd hps (pySplit_ne_nil sep rest)
    | cons hd tl =>
      rw [pySplit_cons sep c rest hps]
      by_cases hc : c = sep
      · rw [if_pos hc]
        subst hc
        have h1 : (([] : List Char) :: hd :: tl).getLastD []
            = (hd :: tl).getLastD [] := List.getLastD_cons [] [] (hd :: tl)
        rw [h1, ← hps, ih]
        show afterLastSep c rest = afterLastSep c (c :: rest)
        unfold afterLastSep
        rw [List.reverse_cons,
          takeWhile_append_of_stop (by simp) rest.reverse []]
      · rw [if_neg hc]
        by_cases hmem : sep ∈ rest
        · have h2 := pySplit_two_le hmem
          rw [hps] at h2
          have htl : tl ≠ [] := by
            intro he
            rw [he] at h2
            simp at h2
          have hlhs : ((c :: hd) :: tl).getLastD ([] : List Char)
              = afterLastSep sep rest := by
            rw [List.getLastD_cons, getLastD_of_ne_nil htl (c :: hd) hd,
              ← List.getLastD_cons [] hd tl, ← hps, ih]
          rw [hlhs]
          show afterLastSep sep rest = afterLastSep sep (c :: rest)
          unfold afterLastSep
          rw [List.reverse_cons,
            takeWhile_append_of_exists_false
              ⟨sep, List.mem_reverse.mpr hmem, by simp⟩ [c]]
        · have hone := pySplit_of_not_mem hmem
          rw [hone] at hps
          injection hps with h1 h2
          subst h1
          subst h2
          show ((c :: rest) :: []).getLastD [] = afterLastSep sep (c :: rest)
          have hall : ∀ x ∈ rest.reverse ++ [c], (x != sep) = true := by
            intro x hx
            rcases List.mem_append.mp hx with hx1 | hx2
            · have : x ∈ rest := List.mem_reverse.mp hx1
              simp only [bne_iff_ne, ne_eq]
              exact fun he => hmem (he ▸ this)
            · have : x = c := by simpa using hx2
              simp only [bne_iff_ne, ne_eq, this]
              exact hc
          unfold afterLastSep
          rw [List.reverse_cons, takeWhile_of_all hall]
          simp

theorem afterLastSep_of_not_mem {sep : Char} {cs : List Char} (h : sep ∉ cs) :
    afterLastSep sep cs = cs := by
  have hall : ∀ x ∈ cs.reverse, (x != sep) = true := by
    intro x hx
    have hm : x ∈ cs := List.mem_reverse.mp hx
    simp only [bne_iff_ne, ne_eq]
    exact fun he => h (he ▸ hm)
  unfold afterLastSep
  rw [takeWhile_of_all hall, List.reverse_reverse]

/-- C10: the extension used for extractor dispatch is the lowercased
segment of the file name after its last dot — for a dot-free name the
entire lowercased name — so a file literally named `txt` (and likewise
`pdf`, `docx`, `png`, `jpg`, `jpeg`) is dispatched by the organize loop
to the extractor of that type rather than skipped as unsupported. -/
theorem C10_extension_dispatch :
    (∀ name : String, detectedType name
      = String.mk ((afterLastSep dotChar name.data).map Char.toLower))
    ∧ (∀ name : String, dotChar ∉ name.data →
      detectedType name = String.mk (name.data.map Char.toLower))
    ∧ detectedType "txt" = "txt"
    ∧ (∀ (cfg : Config) (fs : FS) (d : FileData),
      cfg.files_to_organize = [] →
      fs.lookupFile (pjoin cfg.base "txt") = some d →
      stepAction cfg fs "txt" = StepAction.processFile "txt" d) := by
  have hmain : ∀ name : String, detectedType name
      = String.mk ((afterLastSep dotChar name.data).map Char.toLower) := by
    intro name
    unfold detectedType
    rw [pySplit_getLast]
  refine ⟨hmain, ?_, ?_, ?_⟩
  · intro name h
    rw [hmain, afterLastSep_of_not_mem h]
  · decide
  · intro cfg fs d hcfg hlook
    have hdt : detectedType "txt" = "txt" := by decide
    simp [stepAction, hcfg, hlook, hdt, supportedExts]

/-- C10 witness: a dot-free name is wholly lowercased, and a file
literally named `txt` in the base directory is dispatched for
processing as a text file. -/
theorem C10_extension_dispatch_witness :
    detectedType "ARCHIVE" = String.mk ("ARCHIVE".data.map Char.toLower)
    ∧ stepAction (Config.mk "/b" [] [])
        (FS.mk [("/b/txt", FileData.txt "t")] ["/b"]) "txt"
      = StepAction.processFile "txt" (FileData.txt "t") := by
  constructor
  · exact C10_extension_dispatch.2.1 "ARCHIVE" (by decide)
  · exact C10_extension_dispatch.2.2.2 (Config.mk "/b" [] [])
      (FS.mk [("/b/txt", FileData.txt "t")] ["/b"]) (FileData.txt "t") rfl (by decide)

theorem Chain.weaken {cs : List DirTree} {ch : List String} (c : DirTree)
    (h : Chain cs ch) : Chain (c :: cs) ch := by
  cases h with
  | nil => exact Chain.nil _
  | cons n subs hmem tail => exact Chain.cons n subs (List.mem_cons_of_mem c hmem) tail

theorem mem_walkSubs_iff (excluded : List String) :
    ∀ (cs : List DirTree) (pre rel : String),
      rel ∈ walkSubs excluded pre cs
      ↔ ∃ ch, ch ≠ [] ∧ Chain cs ch ∧ (∀ n ∈ ch, n ∉ excluded)
          ∧ rel = ch.foldl relJoin pre ∧ rel ∉ excluded := by
  intro cs pre rel
  induction pre, cs using walkSubs.induct excluded with
  | case1 rel0 =>
    simp only [walkSubs, List.not_mem_nil, false_iff]
    rintro ⟨ch, hne, hchain, -, -, -⟩
    cases hchain with
    | nil => exact hne rfl
    | cons n subs hmem tail => exact (List.not_mem_nil _) hmem
  | case2 rel0 n subs cs ih1 ih2 =>
    simp only [walkSubs, List.mem_append]
    constructor
    · intro h
      rcases h with h | h
      · by_cases hn : n ∈ excluded
        · rw [if_pos hn] at h
          simp at h
        · rw [if_neg hn] at h
          rcases List.mem_append.mp h with h1 | h2
          · by_cases hr : relJoin rel0 n ∈ excluded
            · rw [if_pos hr] at h1
              simp at h1
            · rw [if_neg hr] at h1
              have hrel : rel = relJoin rel0 n := by simpa using h1
              subst hrel
              refine ⟨[n], by simp, Chain.cons n subs (by simp) (Chain.nil subs),
                ?_, by simp, hr⟩
              intro m hm
              have : m = n := by simpa using hm
              rw [this]
              exact hn
          · obtain ⟨ch, hne, hchain, hnames, heq, hnex⟩ := ih1.mp h2
            refine ⟨n :: ch, by simp, Chain.cons n subs (by simp) hchain, ?_, ?_, hnex⟩
            · intro m hm
              rcases List.mem_cons.mp hm with he | hm2
              · rw [he]; exact hn
              · exact hnames m hm2
            · simpa [List.foldl_cons] using heq
      · obtain ⟨ch, hne, hchain, hnames, heq, hnex⟩ := ih2.mp h
        exact ⟨ch, hne, Chain.weaken _ hchain, hnames, heq, hnex⟩
    · rintro ⟨ch, hne, hchain, hnames, heq, hnex⟩
      cases ch with
      | nil => exact absurd rfl hne
      | cons m ns =>
        cases hchain with
        | cons _ subs2 hmem tail =>
          rcases List.mem_cons.mp hmem with hhead | htail
          · injection hhead with hm hs
            subst hm
            subst hs
            left
            have hn : m ∉ excluded := hnames m (by simp)
            rw [if_neg hn]
            apply List.mem_append.mpr
            cases ns with
            | nil =>
              left
              have hrel : rel = relJoin rel0 m := by simpa using heq
              rw [hrel] at hnex ⊢
              rw [if_neg hnex]
              simp
            | cons n2 ns2 =>
              right
              apply ih1.mpr
              refine ⟨n2 :: ns2, by simp, tail, ?_, ?_, hnex⟩
              · intro q hq
                exact hnames q (by simp [hq])
              · simpa [List.foldl_cons] using heq
          · right
            apply ih2.mpr
            exact ⟨m :: ns, hne, Chain.cons m subs2 htail tail, hnames, heq, hnex⟩

/-- C7 corrected: full characterization of category enumeration.  A
string `rel` is a candidate iff it is the base directory's basename
(itself not excluded), or the relative path (left fold of `relJoin`
from the base) of a chain of subdirectories none of whose names is
excluded and whose relative path is not excluded.  Consequently
exclusion by name is transitive for proper subdirectories of the base
— but the base directory itself is never pruned: when the base's own
name is excluded, only its basename is dropped while its non-excluded
descendants still appear (the counterexample of the original claim). -/
theorem C7_candidate_characterization (excluded : List String) (base : DirTree)
    (rel : String) :
    rel ∈ get_existing_directories excluded base
    ↔ ((rel = base.name ∧ base.name ∉ excluded)
      ∨ ∃ ch, ch ≠ [] ∧ Chain base.subs ch ∧ (∀ n ∈ ch, n ∉ excluded)
          ∧ rel = ch.foldl relJoin "" ∧ rel ∉ excluded) := by
  unfold get_existing_directories
  rw [List.mem_append, mem_walkSubs_iff]
  by_cases hb : base.name ∈ excluded
  · rw [if_pos hb]
    simp [hb]
  · rw [if_neg hb]
    simp [hb]

/-- C7 counterexample: the base directory is itself named `X` and `X`
is excluded, yet its subdirectory `sub` — a descendant of a directory
whose name is in the exclusion set — appears in the candidate list:
`os.walk` prunes children by name but never the root it starts from. -/
theorem C7_counterexample :
    get_existing_directories ["X"] (DirTree.node "X" [DirTree.node "sub" []])
      = ["sub"]
    ∧ "X" ∈ (["X"] : List String) := by
  constructor
  · simp [get_existing_directories, walkSubs, DirTree.name, DirTree.subs, relJoin]
  · simp

end DeskOrganize
